import Mathlib

/-!
Shallow embedding of `src/base/base.js` of the hyperjs repository:
the expression evaluator (`BaseSpace.eval`), the trial store (`Trials`)
and the objective-function adapter (`Domain.evaluate`).

JavaScript values are modelled by the mutual inductive family
`JSVal` / `JSList` / `JSFields` (scalars, arrays, plain objects).
JavaScript numbers are modelled by `JNum`: a finite rational, the two
infinities, or NaN.  No claim exercises floating-point rounding, so ℚ
faithfully carries every numeric comparison the source performs.
-/

/-- Model of a JavaScript number: finite value, ±Infinity, or NaN. -/
inductive JNum where
  | fin : ℚ → JNum
  | inf : JNum
  | ninf : JNum
  | nan : JNum
deriving DecidableEq

/-- JavaScript `===` on numbers (`NaN === NaN` is false, infinities compare by identity). -/
def JNum.seq : JNum → JNum → Bool
  | .fin a, .fin b => a == b
  | .inf, .inf => true
  | .ninf, .ninf => true
  | _, _ => false

/-- JavaScript `<` on numbers: any comparison involving NaN is false. -/
def JNum.jlt : JNum → JNum → Bool
  | .fin a, .fin b => a < b
  | .fin _, .inf => true
  | .ninf, .fin _ => true
  | .ninf, .inf => true
  | _, _ => false

mutual
/-- A JavaScript value: scalar, array, or plain object (ordered key/value fields). -/
inductive JSVal where
  | undefined : JSVal
  | null : JSVal
  | bool : Bool → JSVal
  | num : JNum → JSVal
  | str : String → JSVal
  | arr : JSList → JSVal
  | obj : JSFields → JSVal

/-- The elements of a JavaScript array. -/
inductive JSList where
  | nil : JSList
  | cons : JSVal → JSList → JSList

/-- The own enumerable fields of a JavaScript object, in insertion order. -/
inductive JSFields where
  | nil : JSFields
  | cons : String → JSVal → JSFields → JSFields
end

namespace JSList

/-- Convert the element spine of an array to a Lean list. -/
def toList : JSList → List JSVal
  | .nil => []
  | .cons h t => h :: toList t

/-- Build an array spine from a Lean list. -/
def ofList : List JSVal → JSList
  | [] => .nil
  | h :: t => .cons h (ofList t)

/-- Number of elements. -/
def len : JSList → Nat
  | .nil => 0
  | .cons _ t => 1 + len t

end JSList

namespace JSFields

/-- Build object fields from a Lean association list. -/
def ofList : List (String × JSVal) → JSFields
  | [] => .nil
  | (k, v) :: t => .cons k v (ofList t)

/-- First value stored under a key, if any (a JS object holds each key once). -/
def lookup : JSFields → String → Option JSVal
  | .nil, _ => none
  | .cons k v t, key => if k == key then some v else lookup t key

/-- The keys, in order (model of `Object.keys` on a plain object). -/
def keys : JSFields → List String
  | .nil => []
  | .cons k _ t => k :: keys t

/-- Remove every field named `key` (model of rest-destructuring `{ key, ...rest }`). -/
def erase : JSFields → String → JSFields
  | .nil, _ => .nil
  | .cons k v t, key => if k == key then erase t key else .cons k v (erase t key)

end JSFields

/-- Shorthand for a concrete JavaScript object literal. -/
def jobj (l : List (String × JSVal)) : JSVal := .obj (JSFields.ofList l)

/-- Shorthand for a concrete JavaScript array literal. -/
def jarr (l : List JSVal) : JSVal := .arr (JSList.ofList l)

/-- Is the value `undefined`? -/
def isUndefined : JSVal → Bool
  | .undefined => true
  | _ => false

/-- Does `typeof v === 'number'` hold? -/
def isNumber : JSVal → Bool
  | .num _ => true
  | _ => false

/-- Does `Number.isNaN(v)` hold? -/
def isNaNVal : JSVal → Bool
  | .num .nan => true
  | _ => false

/-- JavaScript strict equality `===`.  Scalars compare structurally
(`NaN === NaN` is false); arrays and objects compare by reference, and two
independently constructed composite values are never the same reference,
so composite comparisons are `false` here (no claim compares a composite
value against itself through an alias). -/
def jsStrictEq : JSVal → JSVal → Bool
  | .undefined, .undefined => true
  | .null, .null => true
  | .bool a, .bool b => a == b
  | .num a, .num b => JNum.seq a b
  | .str a, .str b => a == b
  | _, _ => false

/-- JavaScript property read `v[key]`: a field of a plain object, otherwise
`undefined` (the claims only read data properties of plain objects). -/
def jget : JSVal → String → JSVal
  | .obj fs, key => (fs.lookup key).getD .undefined
  | _, _ => .undefined

/-- JavaScript truthiness: `undefined`, `null`, `false`, `0`, `NaN` and `""` are falsy. -/
def truthy : JSVal → Bool
  | .undefined => false
  | .null => false
  | .bool b => b
  | .num (.fin q) => !(q == 0)
  | .num .nan => false
  | .num _ => true
  | .str s => !(s == "")
  | .arr _ => true
  | .obj _ => true

/-- JavaScript `ToNumber` coercion as far as the claims exercise it: numbers
are kept, `undefined ↦ NaN`, `null ↦ 0`, booleans to 0/1, the empty string
to 0.  Parsing of nonempty numeric strings and array/object coercion are not
modelled (mapped to NaN); no claim compares such values. -/
def toNumber : JSVal → JNum
  | .num n => n
  | .undefined => .nan
  | .null => .fin 0
  | .bool b => .fin (if b then 1 else 0)
  | .str s => if s == "" then .fin 0 else .nan
  | .arr _ => .nan
  | .obj _ => .nan

/-- JavaScript `a < b` (numeric comparison after coercion). -/
def jsLtVal (a b : JSVal) : Bool := JNum.jlt (toNumber a) (toNumber b)

/-- JavaScript `a > b` (numeric comparison after coercion: `b < a`). -/
def jsGtVal (a b : JSVal) : Bool := JNum.jlt (toNumber b) (toNumber a)

/-- JavaScript `Array.prototype.indexOf` (search by `===`, `-1` when absent). -/
def listIndexOf (xs : List JSVal) (v : JSVal) : Int :=
  match xs.findIdx? (fun x => jsStrictEq x v) with
  | some i => (i : Int)
  | none => -1

/-- Model of `Object.keys`: field names of an object, index strings of an
array or string, `[]` for other primitives. -/
def objKeys : JSVal → List String
  | .obj fs => fs.keys
  | .arr items => (List.range items.len).map (fun n => toString n)
  | .str s => (List.range s.length).map (fun n => toString n)
  | _ => []

/-!
## The expression evaluator (`BaseSpace`)

`BaseSpace.eval` (source lines 4–27).  The class carries no sampling
capability of its own; subclasses add them as methods, so `this[name]`
is modelled by an abstract registry `caps` from the looked-up `name`
value to an optional capability function.  When the expression has no
`name` field the source still evaluates `this[name]` with
`name === undefined`, hence the registry is consulted at `JSVal.undefined`.
The random state is an opaque value of type `R`, threaded unchanged —
in the source it is a single mutable object shared by every recursive
call, and only capabilities (external to this file) consume it. -/

/-- The evaluator: a capability registry plus the fresh random state that
`new RandomState()` would produce when the caller supplies none. -/
structure BaseSpace (R : Type) where
  caps : JSVal → Option (JSVal → R → JSVal)
  freshRandomState : R

/-- Model of rest-destructuring `const { name, ...rest } = expr`: the own
enumerable properties of `expr` minus `name` (index keys for arrays and
strings, nothing for other primitives). -/
def restOf : JSVal → JSVal
  | .obj fs => .obj (fs.erase "name")
  | .arr items => jobj ((items.toList.enum.map (fun p => (toString p.1, p.2))))
  | .str s => jobj ((s.toList.enum.map (fun p => (toString p.1, JSVal.str (String.mk [p.2])))))
  | _ => jobj []

mutual
/-- `BaseSpace.eval(expr, { rng })`, source lines 5–26: return `null`/`undefined`
unchanged; default the random state; dispatch to `this[name]` when that is a
function; otherwise map over arrays, rebuild objects key by key, and return
scalars unchanged. -/
def BaseSpace.eval {R : Type} (sp : BaseSpace R) : JSVal → Option R → JSVal
  | .undefined, _ => .undefined
  | .null, _ => .null
  | .bool b, rState =>
    match sp.caps (jget (.bool b) "name") with
    | some space => space (restOf (.bool b)) (rState.getD sp.freshRandomState)
    | none => .bool b
  | .num n, rState =>
    match sp.caps (jget (.num n) "name") with
    | some space => space (restOf (.num n)) (rState.getD sp.freshRandomState)
    | none => .num n
  | .str s, rState =>
    match sp.caps (jget (.str s) "name") with
    | some space => space (restOf (.str s)) (rState.getD sp.freshRandomState)
    | none => .str s
  | .arr items, rState =>
    match sp.caps (jget (.arr items) "name") with
    | some space => space (restOf (.arr items)) (rState.getD sp.freshRandomState)
    | none => .arr (sp.evalList items (rState.getD sp.freshRandomState))
  | .obj fs, rState =>
    match sp.caps (jget (.obj fs) "name") with
    | some space => space (restOf (.obj fs)) (rState.getD sp.freshRandomState)
    | none => .obj (sp.evalFields fs (rState.getD sp.freshRandomState))

/-- `expr.map(item => this.eval(item, { rng }))`: elementwise evaluation,
every element receiving the same random state object. -/
def BaseSpace.evalList {R : Type} (sp : BaseSpace R) : JSList → R → JSList
  | .nil, _ => .nil
  | .cons h t, rng => .cons (sp.eval h (some rng)) (sp.evalList t rng)

/-- `Object.keys(expr).reduce(...)`: rebuild the object with each value
evaluated, keys and order preserved, one shared random state. -/
def BaseSpace.evalFields {R : Type} (sp : BaseSpace R) : JSFields → R → JSFields
  | .nil, _ => .nil
  | .cons k v t, rng => .cons k (sp.eval v (some rng)) (sp.evalFields t rng)
end

mutual
/-- A tree is capability-free when no node's `this[name]` lookup hits a
registered capability: objects look up their `name` field's value, every
other non-null node looks up `undefined`. -/
def capFreeV {R : Type} (sp : BaseSpace R) : JSVal → Bool
  | .undefined => true
  | .null => true
  | .bool _ => (sp.caps .undefined).isNone
  | .num _ => (sp.caps .undefined).isNone
  | .str _ => (sp.caps .undefined).isNone
  | .arr items => (sp.caps .undefined).isNone && capFreeL sp items
  | .obj fs => (sp.caps ((fs.lookup "name").getD .undefined)).isNone && capFreeF sp fs

/-- Capability-freeness of every array element. -/
def capFreeL {R : Type} (sp : BaseSpace R) : JSList → Bool
  | .nil => true
  | .cons h t => capFreeV sp h && capFreeL sp t

/-- Capability-freeness of every object field value. -/
def capFreeF {R : Type} (sp : BaseSpace R) : JSFields → Bool
  | .nil => true
  | .cons _ v t => capFreeV sp v && capFreeF sp t
end

/-!
## Result and job-state vocabulary (source lines 29–63)
-/

def STATUS_NEW : JSVal := .str "new"
def STATUS_RUNNING : JSVal := .str "running"
def STATUS_SUSPENDED : JSVal := .str "suspended"
def STATUS_OK : JSVal := .str "ok"
def STATUS_FAIL : JSVal := .str "fail"

/-- The five recognized result status strings. -/
def STATUS_STRINGS : List JSVal :=
  [STATUS_NEW, STATUS_RUNNING, STATUS_SUSPENDED, STATUS_OK, STATUS_FAIL]

def JOB_STATE_NEW : JSVal := .num (.fin 0)
def JOB_STATE_RUNNING : JSVal := .num (.fin 1)
def JOB_STATE_DONE : JSVal := .num (.fin 2)
def JOB_STATE_ERROR : JSVal := .num (.fin 3)

/-- The six required fields of a trial record, in validation order. -/
def TRIAL_KEYS : List String :=
  ["id", "result", "args", "state", "book_time", "refresh_time"]

/-- `range(start, end)`: the integers from `start` (inclusive) to `end` (exclusive). -/
def range (s e : Nat) : List Nat := (List.range (e - s)).map (fun k => k + s)

/-!
## The trial store (`Trials`, source lines 65–196)

The store's mutable state is the record `Trials`; every method that
mutates `this` is modelled as returning the updated store alongside its
JavaScript return value.  A method that throws is modelled with `Except`:
the store component it returns is the store as the caller observes it
after the exception (unchanged, since the source mutates only after all
validation has passed).
-/

structure Trials where
  ids : List Nat
  dynamicTrials : List JSVal
  trials : List JSVal
  expKey : JSVal

/-- `refresh()` (source lines 80–89): recompute the derived view from the
authoritative list, dropping ERROR-state records, and — when the store has
a non-null experiment key — also records with a different `expKey`; that
branch additionally clears the id-reservation list. -/
def Trials.refresh (t : Trials) : Trials :=
  if jsStrictEq t.expKey .null then
    let view := t.dynamicTrials.filter
      (fun trial => !(jsStrictEq (jget trial "state") JOB_STATE_ERROR))
    { t with trials := view }
  else
    let view := t.dynamicTrials.filter
      (fun trial => !(jsStrictEq (jget trial "state") JOB_STATE_ERROR)
        && jsStrictEq (jget trial "expKey") t.expKey)
    { t with trials := view, ids := ([] : List Nat) }

/-- The constructor `new Trials(expKey)` with its default `refresh = true`. -/
def Trials.make (expKey : JSVal) : Trials :=
  Trials.refresh { ids := [], dynamicTrials := [], trials := [], expKey := expKey }

/-- The `results` getter: the `result` of each record of the derived view. -/
def Trials.results (t : Trials) : List JSVal :=
  t.trials.map (fun trial => jget trial "result")

/-- `assertValidTrial` (source lines 99–111): an object with no own keys is
rejected outright; then the six required fields are checked in `TRIAL_KEYS`
order (a field whose value is `undefined` counts as missing); finally the
record's `expKey` must be strictly equal to the store's. -/
def Trials.assertValidTrial (t : Trials) (trial : JSVal) : Except String JSVal :=
  if (objKeys trial).length ≤ 0 then
    .error "trial should be an object"
  else
    match TRIAL_KEYS.find? (fun key => isUndefined (jget trial key)) with
    | some missingTrialKey => .error ("trial missing key " ++ missingTrialKey)
    | none =>
      if !(jsStrictEq (jget trial "expKey") t.expKey) then
        .error "wrong trial expKey"
      else
        .ok trial

/-- `internalInsertTrialDocs` (source lines 113–117): append the docs to the
authoritative list and return their ids. -/
def Trials.internalInsertTrialDocs (t : Trials) (docs : List JSVal) :
    Trials × List JSVal :=
  ({ t with dynamicTrials := t.dynamicTrials ++ docs },
   docs.map (fun doc => jget doc "id"))

/-- `insertTrialDoc` (source lines 119–122): validate, then append; on a
validation error the exception propagates and the store is untouched. -/
def Trials.insertTrialDoc (t : Trials) (trial : JSVal) :
    Trials × Except String JSVal :=
  match t.assertValidTrial trial with
  | .error e => (t, .error e)
  | .ok doc =>
    match t.internalInsertTrialDocs [doc] with
    | (t2, rval) => (t2, .ok (rval.headD .undefined))

/-- `trials.map(trial => this.assertValidTrial(trial))` with exception
propagation: the first invalid record aborts the whole pass. -/
def Trials.mapValid (t : Trials) : List JSVal → Except String (List JSVal)
  | [] => .ok []
  | x :: xs =>
    match t.assertValidTrial x with
    | .error e => .error e
    | .ok doc =>
      match t.mapValid xs with
      | .error e => .error e
      | .ok docs => .ok (doc :: docs)

/-- `insertTrialDocs` (source lines 124–127): `trials.map(assertValidTrial)`
throws at the first invalid record, before anything is appended. -/
def Trials.insertTrialDocs (t : Trials) (docs : List JSVal) :
    Trials × Except String (List JSVal) :=
  match t.mapValid docs with
  | .error e => (t, .error e)
  | .ok valid =>
    match t.internalInsertTrialDocs valid with
    | (t2, rval) => (t2, .ok rval)

/-- `newTrialIds(N)` (source lines 129–134): hand out the next `N` integers
after `ids.length` and record them in `ids`. -/
def Trials.newTrialIds (t : Trials) (N : Nat) : Trials × List Nat :=
  let aa := t.ids.length
  let rval := range aa (aa + N)
  ({ t with ids := t.ids ++ rval }, rval)

/-- `countByStateSynced(arg, trials = null)` (source lines 158–163): count,
in the given list (default: the derived view), the entries whose `state`
occurs by `===` in `arg` (a single state or an array of states). -/
def Trials.countByStateSynced (t : Trials) (arg : JSVal)
    (trialsArg : Option (List JSVal)) : Nat :=
  let vTrials := trialsArg.getD t.trials
  let vArg : List JSVal := match arg with
    | .arr items => items.toList
    | a => [a]
  (vTrials.filter
    (fun doc => decide (0 ≤ listIndexOf vArg (jget doc "state")))).length

/-- `countByStateUnsynced(arg)` (source lines 165–169), verbatim: under a
non-null experiment key it builds `dynamicTrials.map(trial => trial.expKey
=== this.expKey)` — a list of booleans, not a filtered list of trials —
and counts states in that. -/
def Trials.countByStateUnsynced (t : Trials) (arg : JSVal) : Nat :=
  let expTrials :=
    if !(jsStrictEq t.expKey .null) then
      t.dynamicTrials.map
        (fun trial => JSVal.bool (jsStrictEq (jget trial "expKey") t.expKey))
    else t.dynamicTrials
  t.countByStateSynced arg (some expTrials)

/-- `losses()` (source line 171): project each result to `r.loss || r.accuracy`
(JavaScript `||`: the `accuracy` field stands in whenever `loss` is falsy). -/
def Trials.losses (t : Trials) : List JSVal :=
  t.results.map (fun r => if truthy (jget r "loss") then jget r "loss"
                          else jget r "accuracy")

/-- `statuses()` (source line 173). -/
def Trials.statuses (t : Trials) : List JSVal :=
  t.results.map (fun r => jget r "status")

/-- The default comparator of `bestTrial` (source lines 175–176):
`a.loss !== undefined ? a.loss < b.loss : a.accuracy > b.accuracy`. -/
def defaultCmp (a b : JSVal) : Bool :=
  if !(isUndefined (jget a "loss")) then jsLtVal (jget a "loss") (jget b "loss")
  else jsGtVal (jget a "accuracy") (jget b "accuracy")

/-- The comparator `argmax` passes to `bestTrial` (source lines 192–193):
`a.loss !== undefined ? a.loss > b.loss : a.accuracy > b.accuracy`. -/
def argmaxCmp (a b : JSVal) : Bool :=
  if !(isUndefined (jget a "loss")) then jsGtVal (jget a "loss") (jget b "loss")
  else jsGtVal (jget a "accuracy") (jget b "accuracy")

/-- Does a record's `result.status` strictly equal `"ok"`? -/
def isOkTrial (trial : JSVal) : Bool :=
  jsStrictEq (jget (jget trial "result") "status") STATUS_OK

/-- One step of `bestTrial`'s `forEach` body (source lines 178–182). -/
def bestStep (cmp : JSVal → JSVal → Bool) (best trial : JSVal) : JSVal :=
  if isOkTrial trial && cmp (jget trial "result") (jget best "result")
  then trial else best

/-- `bestTrial(compare)` (source lines 175–184): start from `trials[0]`
(`undefined` when the view is empty), then fold the view, replacing the
running best by any OK-status record the comparator prefers. -/
def Trials.bestTrial (t : Trials) (cmp : JSVal → JSVal → Bool) : JSVal :=
  match t.trials with
  | [] => .undefined
  | h :: _ => t.trials.foldl (bestStep cmp) h

/-- The `argmin` getter (source lines 186–189). -/
def Trials.argmin (t : Trials) : JSVal :=
  let best := t.bestTrial defaultCmp
  if !(jsStrictEq best .undefined) then jget best "args" else .undefined

/-- The `argmax` getter (source lines 191–195). -/
def Trials.argmax (t : Trials) : JSVal :=
  let best := t.bestTrial argmaxCmp
  if !(jsStrictEq best .undefined) then jget best "args" else .undefined

/-!
## The domain adapter (`Domain`, source lines 198–228)
-/

/-- The distinct failure modes of `Domain.evaluate`.  `typeErr` is the native
TypeError JavaScript raises when `const { status, loss, accuracy } = result`
destructures `null`. -/
inductive DomainError where
  | invalidReturn : DomainError
  | typeErr : DomainError
  | invalidStatus : DomainError
  | incompleteResult : DomainError
deriving DecidableEq

/-- An objective function together with its search expression and fixed
parameters (`new Domain(fn, expr, params)`). -/
structure Domain where
  fn : JSVal → JSVal → JSVal
  expr : JSVal
  params : JSVal

/-- `Domain.evaluate(args)` (source lines 205–224): call the objective
function; a number other than NaN is wrapped as `{ loss, status: 'ok' }`;
otherwise the value is validated as a structured result (`undefined` ⇒
invalid return; `null` ⇒ the destructuring itself throws; unrecognized
`status` ⇒ invalid status; OK without `loss` or `accuracy` ⇒ incomplete)
and returned unchanged when valid. -/
def Domain.evaluate (d : Domain) (args : JSVal) : Except DomainError JSVal :=
  let rval := d.fn args d.params
  if isNumber rval && !(isNaNVal rval) then
    .ok (jobj [("loss", rval), ("status", STATUS_OK)])
  else
    if isUndefined rval then .error .invalidReturn
    else if jsStrictEq rval .null then .error .typeErr
    else
      let status := jget rval "status"
      let loss := jget rval "loss"
      let accuracy := jget rval "accuracy"
      if listIndexOf STATUS_STRINGS status < 0 then .error .invalidStatus
      else if jsStrictEq status STATUS_OK && isUndefined loss && isUndefined accuracy then
        .error .incompleteResult
      else .ok rval

/-- `Domain.evaluate` on a given objective-function return value (the
adapter with a constant objective function). -/
def evalReturnValue (v : JSVal) : Except DomainError JSVal :=
  (Domain.mk (fun _ _ => v) .undefined .undefined).evaluate .undefined

/-!
## Derived projections and concrete stores used by the statements below
-/

/-- The `loss` of a trial record's result. -/
def lossOf (trial : JSVal) : JSVal := jget (jget trial "result") "loss"

/-- The `accuracy` of a trial record's result. -/
def accOf (trial : JSVal) : JSVal := jget (jget trial "result") "accuracy"

/-- The rational carried by a finite-number `loss` (0 when the loss is not
a finite number; only used under hypotheses that make it one). -/
def lq (trial : JSVal) : ℚ :=
  match lossOf trial with
  | .num (.fin q) => q
  | _ => 0

/-- The rational carried by a finite-number `accuracy`. -/
def aq (trial : JSVal) : ℚ :=
  match accOf trial with
  | .num (.fin q) => q
  | _ => 0

/-- The rational 1/2, built so the kernel can evaluate comparisons on it. -/
def halfQ : ℚ := ⟨1, 2, by norm_num, by norm_num⟩

/-- The rational 1/5, built so the kernel can evaluate comparisons on it. -/
def fifthQ : ℚ := ⟨1, 5, by norm_num, by norm_num⟩

/-- A complete OK-status trial record with the given id, `loss` value and `args`. -/
def okDoc (idn : ℚ) (lossv : JSVal) (argsv : JSVal) : JSVal :=
  jobj [("id", .num (.fin idn)),
        ("result", jobj [("status", .str "ok"), ("loss", lossv)]),
        ("args", argsv), ("state", JOB_STATE_DONE),
        ("book_time", .null), ("refresh_time", .null), ("expKey", .null)]

/-- A complete OK-status trial record carrying only an `accuracy` signal. -/
def accOnlyDoc (idn accq : ℚ) (argsv : JSVal) : JSVal :=
  jobj [("id", .num (.fin idn)),
        ("result", jobj [("status", .str "ok"), ("accuracy", .num (.fin accq))]),
        ("args", argsv), ("state", JOB_STATE_DONE),
        ("book_time", .null), ("refresh_time", .null), ("expKey", .null)]

/-- The spec's scenario store: two OK trials with losses 0.5 and 0.2. -/
def scenarioStore : Trials :=
  (((Trials.make .null).insertTrialDoc
      (okDoc 0 (.num (.fin halfQ)) (.str "a"))).1.insertTrialDoc
      (okDoc 1 (.num (.fin fifthQ)) (.str "b"))).1.refresh

/-- A store of two OK trials with no `loss` and accuracies 2 and 3. -/
def accStore : Trials :=
  (((Trials.make .null).insertTrialDoc
      (accOnlyDoc 0 2 (.str "c"))).1.insertTrialDoc
      (accOnlyDoc 1 3 (.str "d"))).1.refresh

/-- A complete trial record whose result status is `"fail"` (not OK). -/
def failDoc : JSVal :=
  jobj [("id", .num (.fin 0)),
        ("result", jobj [("status", .str "fail")]),
        ("args", .num (.fin 7)), ("state", JOB_STATE_DONE),
        ("book_time", .null), ("refresh_time", .null), ("expKey", .null)]

/-- A store whose derived view holds exactly one non-OK record. -/
def failStore : Trials := ((Trials.make .null).insertTrialDoc failDoc).1.refresh

/-- A NEW-state trial record grouped under experiment key `"A"`. -/
def c2doc : JSVal :=
  jobj [("id", .num (.fin 0)),
        ("result", jobj [("status", .str "new")]),
        ("args", .null), ("state", JOB_STATE_NEW),
        ("book_time", .null), ("refresh_time", .null), ("expKey", .str "A")]

/-- A store with experiment key `"A"` holding one matching NEW-state record. -/
def c2store : Trials := ((Trials.make (.str "A")).insertTrialDoc c2doc).1

/-- A record with `id` and `args` but no `result` (nor the later fields). -/
def docMissingResult : JSVal :=
  jobj [("id", .num (.fin 0)), ("args", .null)]

/-- A complete OK record whose `loss` is the number 0 and whose accuracy is 9. -/
def zeroLossDoc : JSVal :=
  jobj [("id", .num (.fin 0)),
        ("result", jobj [("status", .str "ok"), ("loss", .num (.fin 0)),
                         ("accuracy", .num (.fin 9))]),
        ("args", .str "z"), ("state", JOB_STATE_DONE),
        ("book_time", .null), ("refresh_time", .null), ("expKey", .null)]

/-- A store whose view holds the zero-loss record. -/
def zeroLossStore : Trials := ((Trials.make .null).insertTrialDoc zeroLossDoc).1.refresh

/-- A structured result with an unrecognized status string. -/
def bogusResult : JSVal := jobj [("status", .str "bogus")]

/-- An evaluator with an empty capability registry. -/
def emptySpace : BaseSpace Nat := ⟨fun _ => none, 0⟩

/-- A capability-free expression tree: a scalar, an object, a nested array
and `null` inside one sequence. -/
def capFreeExpr : JSVal :=
  jarr [.num (.fin 1), jobj [("a", .str "x"), ("b", jarr [.bool true])], .null]

/-!
## Helper lemmas
-/

/-- Only `undefined` is strictly equal to `undefined`. -/
theorem jsStrictEq_undef_iff (v : JSVal) : jsStrictEq v .undefined = true ↔ v = .undefined := by
  cases v <;> simp [jsStrictEq]

/-- `halfQ` is the number 0.5. -/
theorem halfQ_eq : halfQ = 0.5 := by
  unfold halfQ; rw [Rat.mk'_eq_divInt]; norm_num [Rat.divInt_eq_div]

/-- `fifthQ` is the number 0.2. -/
theorem fifthQ_eq : fifthQ = 0.2 := by
  unfold fifthQ; rw [Rat.mk'_eq_divInt]; norm_num [Rat.divInt_eq_div]

/-- One `bestTrial` step keeps the running best or moves to the current trial. -/
theorem bestStep_eq_or (cmp : JSVal → JSVal → Bool) (b x : JSVal) :
    bestStep cmp b x = x ∨ bestStep cmp b x = b := by
  unfold bestStep; split <;> simp

/-- One `bestTrial` step preserves OK status of the running best. -/
theorem bestStep_ok (cmp : JSVal → JSVal → Bool) (b x : JSVal)
    (hb : isOkTrial b = true) : isOkTrial (bestStep cmp b x) = true := by
  unfold bestStep; split
  · next h => exact ((Bool.and_eq_true _ _).mp h).1
  · exact hb

/-- A non-OK trial never replaces the running best. -/
theorem bestStep_notOk (cmp : JSVal → JSVal → Bool) (b x : JSVal)
    (hx : isOkTrial x = false) : bestStep cmp b x = b := by
  unfold bestStep; simp [hx]

/-- The `bestTrial` fold lands on its seed or on a list element. -/
theorem foldl_bestStep_mem (cmp : JSVal → JSVal → Bool) :
    ∀ (l : List JSVal) (b : JSVal),
      l.foldl (bestStep cmp) b = b ∨ l.foldl (bestStep cmp) b ∈ l := by
  intro l
  induction l with
  | nil => intro b; left; rfl
  | cons x xs ih =>
    intro b
    rcases ih (bestStep cmp b x) with h | h
    · rcases bestStep_eq_or cmp b x with h2 | h2
      · right; rw [List.foldl_cons, h, h2]; exact List.mem_cons_self x xs
      · left; rw [List.foldl_cons, h, h2]
    · right; exact List.mem_cons_of_mem x h

/-- The `bestTrial` fold preserves OK status of the seed. -/
theorem foldl_bestStep_okStatus (cmp : JSVal → JSVal → Bool) :
    ∀ (l : List JSVal) (b : JSVal), isOkTrial b = true →
      isOkTrial (l.foldl (bestStep cmp) b) = true := by
  intro l
  induction l with
  | nil => intro b hb; exact hb
  | cons x xs ih => intro b hb; exact ih _ (bestStep_ok cmp b x hb)

/-- Over a list with no OK record the `bestTrial` fold returns its seed. -/
theorem foldl_bestStep_noOk (cmp : JSVal → JSVal → Bool) :
    ∀ (l : List JSVal) (b : JSVal), (∀ x ∈ l, isOkTrial x = false) →
      l.foldl (bestStep cmp) b = b := by
  intro l
  induction l with
  | nil => intro b _; rfl
  | cons x xs ih =>
    intro b h
    rw [List.foldl_cons, bestStep_notOk cmp b x (h x (List.mem_cons_self x xs))]
    exact ih b (fun y hy => h y (List.mem_cons_of_mem x hy))

/-- `lq` reads off a finite-number loss. -/
theorem lq_spec (x : JSVal) (q : ℚ) (h : lossOf x = .num (.fin q)) : lq x = q := by
  simp [lq, h]

/-- `aq` reads off a finite-number accuracy. -/
theorem aq_spec (x : JSVal) (q : ℚ) (h : accOf x = .num (.fin q)) : aq x = q := by
  simp [aq, h]

/-- On results with finite-number losses the default comparator is the
strict order on the losses. -/
theorem defaultCmp_fin (a b : JSVal) (p q : ℚ)
    (ha : jget a "loss" = .num (.fin p)) (hb : jget b "loss" = .num (.fin q)) :
    defaultCmp a b = decide (p < q) := by
  simp [defaultCmp, ha, hb, isUndefined, jsLtVal, toNumber, JNum.jlt]

/-- On results with no loss and finite-number accuracies the `argmax`
comparator is the strict order on the accuracies, reversed. -/
theorem argmaxCmp_acc (a b : JSVal) (p q : ℚ)
    (hla : jget a "loss" = .undefined)
    (ha : jget a "accuracy" = .num (.fin p)) (hb : jget b "accuracy" = .num (.fin q)) :
    argmaxCmp a b = decide (q < p) := by
  simp [argmaxCmp, hla, ha, hb, isUndefined, jsGtVal, toNumber, JNum.jlt]

/-- Over OK records with finite losses, the `bestTrial` fold with the default
comparator reaches a loss no larger than the seed's and than any element's. -/
theorem foldl_bestStep_min :
    ∀ (l : List JSVal) (b : JSVal),
      isOkTrial b = true → (∃ q, lossOf b = .num (.fin q)) →
      (∀ x ∈ l, isOkTrial x = true ∧ ∃ q, lossOf x = .num (.fin q)) →
      lq (l.foldl (bestStep defaultCmp) b) ≤ lq b ∧
      ∀ x ∈ l, lq (l.foldl (bestStep defaultCmp) b) ≤ lq x := by
  intro l
  induction l with
  | nil => intro b _ _ _; exact ⟨le_refl _, by intro x hx; cases hx⟩
  | cons x xs ih =>
    intro b hb ⟨qb, hqb⟩ hl
    obtain ⟨hx, qx, hqx⟩ := hl x (List.mem_cons_self x xs)
    have hcmp : bestStep defaultCmp b x = x ∨ bestStep defaultCmp b x = b :=
      bestStep_eq_or _ _ _
    have hcmpval : defaultCmp (jget x "result") (jget b "result") = decide (qx < qb) :=
      defaultCmp_fin _ _ qx qb hqx hqb
    have hstep : lq (bestStep defaultCmp b x) ≤ lq b ∧ lq (bestStep defaultCmp b x) ≤ lq x := by
      unfold bestStep
      rw [hcmpval, hx]
      by_cases hlt : qx < qb
      · simp [hlt, lq_spec x qx hqx, lq_spec b qb hqb, le_of_lt hlt]
      · simp [hlt, lq_spec x qx hqx, lq_spec b qb hqb, le_of_not_lt hlt]
    have hbs : isOkTrial (bestStep defaultCmp b x) = true := bestStep_ok _ _ _ hb
    have hbf : ∃ q, lossOf (bestStep defaultCmp b x) = .num (.fin q) := by
      rcases hcmp with h | h
      · rw [h]; exact ⟨qx, hqx⟩
      · rw [h]; exact ⟨qb, hqb⟩
    obtain ⟨ih1, ih2⟩ := ih (bestStep defaultCmp b x) hbs hbf
      (fun y hy => hl y (List.mem_cons_of_mem x hy))
    refine ⟨le_trans ih1 hstep.1, ?_⟩
    intro y hy
    rcases List.mem_cons.mp hy with rfl | hy2
    · exact le_trans ih1 hstep.2
    · exact ih2 y hy2

/-- Over OK records with no loss and finite accuracies, the `bestTrial` fold
with the `argmax` comparator reaches an accuracy no smaller than the seed's
and than any element's. -/
theorem foldl_bestStep_max :
    ∀ (l : List JSVal) (b : JSVal),
      isOkTrial b = true → lossOf b = .undefined → (∃ q, accOf b = .num (.fin q)) →
      (∀ x ∈ l, isOkTrial x = true ∧ lossOf x = .undefined ∧ ∃ q, accOf x = .num (.fin q)) →
      aq b ≤ aq (l.foldl (bestStep argmaxCmp) b) ∧
      ∀ x ∈ l, aq x ≤ aq (l.foldl (bestStep argmaxCmp) b) := by
  intro l
  induction l with
  | nil => intro b _ _ _ _; exact ⟨le_refl _, by intro x hx; cases hx⟩
  | cons x xs ih =>
    intro b hb hlb ⟨qb, hqb⟩ hl
    obtain ⟨hx, hlx, qx, hqx⟩ := hl x (List.mem_cons_self x xs)
    have hcmp : bestStep argmaxCmp b x = x ∨ bestStep argmaxCmp b x = b :=
      bestStep_eq_or _ _ _
    have hcmpval : argmaxCmp (jget x "result") (jget b "result") = decide (qb < qx) :=
      argmaxCmp_acc _ _ qx qb hlx hqx hqb
    have hstep : aq b ≤ aq (bestStep argmaxCmp b x) ∧ aq x ≤ aq (bestStep argmaxCmp b x) := by
      unfold bestStep
      rw [hcmpval, hx]
      by_cases hlt : qb < qx
      · simp [hlt, aq_spec x qx hqx, aq_spec b qb hqb, le_of_lt hlt]
      · simp [hlt, aq_spec x qx hqx, aq_spec b qb hqb, le_of_not_lt hlt]
    have hbs : isOkTrial (bestStep argmaxCmp b x) = true := bestStep_ok _ _ _ hb
    have hbl : lossOf (bestStep argmaxCmp b x) = .undefined := by
      rcases hcmp with h | h
      · rw [h]; exact hlx
      · rw [h]; exact hlb
    have hbf : ∃ q, accOf (bestStep argmaxCmp b x) = .num (.fin q) := by
      rcases hcmp with h | h
      · rw [h]; exact ⟨qx, hqx⟩
      · rw [h]; exact ⟨qb, hqb⟩
    obtain ⟨ih1, ih2⟩ := ih (bestStep argmaxCmp b x) hbs hbl hbf
      (fun y hy => hl y (List.mem_cons_of_mem x hy))
    refine ⟨le_trans hstep.1 ih1, ?_⟩
    intro y hy
    rcases List.mem_cons.mp hy with rfl | hy2
    · exact le_trans hstep.2 ih1
    · exact ih2 y hy2

/-- Length of a reserved id range. -/
theorem range_len (s n : Nat) : (range s (s + n)).length = n := by
  simp [range]

/-- Membership in a reserved id range. -/
theorem mem_range_iff (s n x : Nat) : x ∈ range s (s + n) ↔ s ≤ x ∧ x < s + n := by
  simp only [range, Nat.add_sub_cancel_left, List.mem_map, List.mem_range]
  constructor
  · rintro ⟨k, hk, rfl⟩; omega
  · rintro ⟨h1, h2⟩; exact ⟨x - s, by omega, by omega⟩

mutual
/-- On a capability-free value the evaluator is the identity. -/
theorem evalV_capFree {R : Type} (sp : BaseSpace R) (v : JSVal) (rs : Option R)
    (h : capFreeV sp v = true) : sp.eval v rs = v :=
  match v with
  | .undefined => rfl
  | .null => rfl
  | .bool b => by
    have hc : sp.caps .undefined = none := by
      simpa [capFreeV, Option.isNone_iff_eq_none] using h
    simp [BaseSpace.eval, jget, hc]
  | .num n => by
    have hc : sp.caps .undefined = none := by
      simpa [capFreeV, Option.isNone_iff_eq_none] using h
    simp [BaseSpace.eval, jget, hc]
  | .str s => by
    have hc : sp.caps .undefined = none := by
      simpa [capFreeV, Option.isNone_iff_eq_none] using h
    simp [BaseSpace.eval, jget, hc]
  | .arr items => by
    have h2 := h
    simp only [capFreeV, Bool.and_eq_true, Option.isNone_iff_eq_none] at h2
    simp [BaseSpace.eval, jget, h2.1,
      evalL_capFree sp items (rs.getD sp.freshRandomState) h2.2]
  | .obj fs => by
    have h2 := h
    simp only [capFreeV, Bool.and_eq_true, Option.isNone_iff_eq_none] at h2
    simp [BaseSpace.eval, jget, h2.1,
      evalF_capFree sp fs (rs.getD sp.freshRandomState) h2.2]

/-- On capability-free array elements the evaluator maps to the same elements. -/
theorem evalL_capFree {R : Type} (sp : BaseSpace R) (l : JSList) (rng : R)
    (h : capFreeL sp l = true) : sp.evalList l rng = l :=
  match l with
  | .nil => rfl
  | .cons x xs => by
    have h2 := h
    simp only [capFreeL, Bool.and_eq_true] at h2
    simp [BaseSpace.evalList, evalV_capFree sp x (some rng) h2.1,
      evalL_capFree sp xs rng h2.2]

/-- On capability-free field values the evaluator rebuilds the same fields. -/
theorem evalF_capFree {R : Type} (sp : BaseSpace R) (fs : JSFields) (rng : R)
    (h : capFreeF sp fs = true) : sp.evalFields fs rng = fs :=
  match fs with
  | .nil => rfl
  | .cons k v t => by
    have h2 := h
    simp only [capFreeF, Bool.and_eq_true] at h2
    simp [BaseSpace.evalFields, evalV_capFree sp v (some rng) h2.1,
      evalF_capFree sp t rng h2.2]
end

/-- When some record of a batch is invalid, its eager validation pass fails. -/
theorem mapValid_error_of_invalid (t : Trials) :
    ∀ (l : List JSVal), (∃ d ∈ l, ∃ e, t.assertValidTrial d = .error e) →
      ∃ e2, t.mapValid l = .error e2 := by
  intro l
  induction l with
  | nil => rintro ⟨d, hd, _⟩; cases hd
  | cons x xs ih =>
    rintro ⟨d, hd, e, he⟩
    cases hfx : t.assertValidTrial x with
    | error e0 => exact ⟨e0, by simp [Trials.mapValid, hfx]⟩
    | ok y =>
      rcases List.mem_cons.mp hd with rfl | hd2
      · rw [hfx] at he; cases he
      · obtain ⟨e2, he2⟩ := ih ⟨d, hd2, e, he⟩
        exact ⟨e2, by simp [Trials.mapValid, hfx, he2]⟩

/-!
## Claim theorems
-/

/-- C6: after `refresh()` the derived view consists exactly of the records of
the authoritative list, in order, whose state is not ERROR and — when the
store's experiment key is non-null — whose `expKey` equals the store's
experiment key; in particular the view never retains an ERROR-state record. -/
theorem refresh_view_behavior (t : Trials) :
    (t.refresh).trials = t.dynamicTrials.filter
      (fun trial => !(jsStrictEq (jget trial "state") JOB_STATE_ERROR)
        && (jsStrictEq t.expKey .null || jsStrictEq (jget trial "expKey") t.expKey)) ∧
    ∀ trial ∈ (t.refresh).trials,
      jsStrictEq (jget trial "state") JOB_STATE_ERROR = false := by
  have hmain : (t.refresh).trials = t.dynamicTrials.filter
      (fun trial => !(jsStrictEq (jget trial "state") JOB_STATE_ERROR)
        && (jsStrictEq t.expKey .null || jsStrictEq (jget trial "expKey") t.expKey)) := by
    unfold Trials.refresh
    cases hN : jsStrictEq t.expKey .null with
    | true =>
      simp only [hN, if_true]
      exact List.filter_congr (fun x _ => by simp)
    | false =>
      simp only [hN, Bool.false_eq_true, if_false]
      exact List.filter_congr (fun x _ => by simp)
  refine ⟨hmain, ?_⟩
  intro trial htr
  rw [hmain] at htr
  have := (List.mem_filter.mp htr).2
  have h2 := ((Bool.and_eq_true _ _).mp this).1
  simpa using h2

/-- C7: two successive `reserveIds` calls hand out two contiguous blocks of
`n` and then `m` fresh integers: the first is exactly `[k, k+n)` for `k` the
current reservation count, the second exactly `[k+n, k+n+m)`, and the two
blocks are disjoint. -/
theorem newTrialIds_two_calls (t : Trials) (n m : Nat) (hn : 0 < n) (hm : 0 < m) :
    (t.newTrialIds n).2.length = n ∧
    ((t.newTrialIds n).1.newTrialIds m).2.length = m ∧
    (∀ x, x ∈ (t.newTrialIds n).2 ↔ t.ids.length ≤ x ∧ x < t.ids.length + n) ∧
    (∀ x, x ∈ ((t.newTrialIds n).1.newTrialIds m).2 ↔
        t.ids.length + n ≤ x ∧ x < t.ids.length + n + m) ∧
    List.Disjoint (t.newTrialIds n).2 ((t.newTrialIds n).1.newTrialIds m).2 := by
  have e1 : (t.newTrialIds n).2 = range t.ids.length (t.ids.length + n) := rfl
  have e0 : (t.newTrialIds n).1.ids = t.ids ++ range t.ids.length (t.ids.length + n) := rfl
  have elen : (t.newTrialIds n).1.ids.length = t.ids.length + n := by
    rw [e0, List.length_append, range_len]
  have e2 : ((t.newTrialIds n).1.newTrialIds m).2 =
      range (t.ids.length + n) (t.ids.length + n + m) := by
    show range (t.newTrialIds n).1.ids.length ((t.newTrialIds n).1.ids.length + m) = _
    rw [elen]
  refine ⟨by rw [e1, range_len], by rw [e2, range_len], ?_, ?_, ?_⟩
  · intro x; rw [e1]; exact mem_range_iff _ _ _
  · intro x; rw [e2]; exact mem_range_iff _ _ _
  · intro x h1 h2
    rw [e1, mem_range_iff] at h1
    rw [e2, mem_range_iff] at h2
    omega

/-- C9: the expression evaluator acts as the identity on capability-free
input: `null` and `undefined` come back unchanged, and any tree in which no
node's `name` lookup resolves to a registered capability evaluates to the
structurally identical tree (same scalars, same order, same keys). -/
theorem eval_identity_on_capFree {R : Type} (sp : BaseSpace R) (rs : Option R)
    (expr : JSVal) :
    sp.eval .null rs = .null ∧ sp.eval .undefined rs = .undefined ∧
    (capFreeV sp expr = true → sp.eval expr rs = expr) :=
  ⟨rfl, rfl, fun h => evalV_capFree sp expr rs h⟩

/-- C9 witness: a concrete capability-free tree evaluates to itself under an
evaluator with an empty registry. -/
theorem eval_identity_on_capFree_witness :
    capFreeV emptySpace capFreeExpr = true ∧
    emptySpace.eval capFreeExpr none = capFreeExpr :=
  ⟨rfl, (eval_identity_on_capFree emptySpace none capFreeExpr).2.2 rfl⟩

/-- `argmin` always projects the `args` of what `bestTrial` returned
(`undefined` propagates through the projection). -/
theorem argmin_eq_jget_args (t : Trials) :
    t.argmin = jget (t.bestTrial defaultCmp) "args" := by
  unfold Trials.argmin
  cases hsu : jsStrictEq (t.bestTrial defaultCmp) .undefined
  · simp [hsu]
  · have hb := (jsStrictEq_undef_iff _).mp hsu
    simp [hsu, hb, jget]

/-- `argmax` always projects the `args` of what `bestTrial` returned. -/
theorem argmax_eq_jget_args (t : Trials) :
    t.argmax = jget (t.bestTrial argmaxCmp) "args" := by
  unfold Trials.argmax
  cases hsu : jsStrictEq (t.bestTrial argmaxCmp) .undefined
  · simp [hsu]
  · have hb := (jsStrictEq_undef_iff _).mp hsu
    simp [hsu, hb, jget]

/-- `find?` returns the element at the first index where the predicate holds. -/
theorem find_eq_get_of_first {α : Type} (p : α → Bool) :
    ∀ (l : List α) (i : Nat) (hi : i < l.length),
      p (l.get ⟨i, hi⟩) = true →
      (∀ j (hj : j < i), p (l.get ⟨j, by omega⟩) = false) →
      l.find? p = some (l.get ⟨i, hi⟩) := by
  intro l
  induction l with
  | nil => intro i hi; cases hi
  | cons x xs ih =>
    intro i hi hp hb
    cases i with
    | zero =>
      have hp2 : p x = true := hp
      simp only [List.find?]
      rw [hp2]
      rfl
    | succ n =>
      have hi2 : n < xs.length := by
        have hc := hi
        simp only [List.length_cons] at hc
        omega
      have hx : p x = false := hb 0 (Nat.succ_pos n)
      have hrec : xs.find? p = some (xs.get ⟨n, hi2⟩) :=
        ih n hi2 hp (fun j hj => hb (j + 1) (by omega))
      simp only [List.find?]
      rw [hx]
      exact hrec

/-- C10: `losses()` projects a result whose `loss` is the number 0 (or any
falsy `loss`) to its `accuracy` field rather than to the loss, and yields the
`loss` only when the loss is truthy (or degenerately equals the accuracy). -/
theorem losses_falsy_loss (t : Trials) (i : Nat)
    (h1 : i < t.trials.length) (h2 : i < t.losses.length) :
    (jget (jget (t.trials.get ⟨i, h1⟩) "result") "loss" = .num (.fin 0) →
      t.losses.get ⟨i, h2⟩ = jget (jget (t.trials.get ⟨i, h1⟩) "result") "accuracy") ∧
    (truthy (jget (jget (t.trials.get ⟨i, h1⟩) "result") "loss") = false →
      t.losses.get ⟨i, h2⟩ = jget (jget (t.trials.get ⟨i, h1⟩) "result") "accuracy") ∧
    (t.losses.get ⟨i, h2⟩ = jget (jget (t.trials.get ⟨i, h1⟩) "result") "loss" →
      truthy (jget (jget (t.trials.get ⟨i, h1⟩) "result") "loss") = true ∨
      jget (jget (t.trials.get ⟨i, h1⟩) "result") "loss" =
        jget (jget (t.trials.get ⟨i, h1⟩) "result") "accuracy") := by
  have key : t.losses.get ⟨i, h2⟩ =
      (if truthy (jget (jget (t.trials.get ⟨i, h1⟩) "result") "loss")
       then jget (jget (t.trials.get ⟨i, h1⟩) "result") "loss"
       else jget (jget (t.trials.get ⟨i, h1⟩) "result") "accuracy") := by
    simp [Trials.losses, Trials.results, List.get_eq_getElem, List.getElem_map]
  refine ⟨?_, ?_, ?_⟩
  · intro hz
    rw [key, hz]
    simp [truthy]
  · intro hf
    rw [key, hf]
    simp
  · intro heq
    cases ht : truthy (jget (jget (t.trials.get ⟨i, h1⟩) "result") "loss")
    · right
      rw [key, ht] at heq
      simp only [Bool.false_eq_true, if_false] at heq
      exact heq.symm
    · left; rfl

/-- C10 witness: in a store holding one OK record with `loss = 0` and
`accuracy = 9`, `losses()` yields 9, not 0. -/
theorem losses_falsy_loss_witness :
    0 < zeroLossStore.trials.length ∧
    zeroLossStore.losses.get ⟨0, by decide⟩ = .num (.fin 9) :=
  ⟨by decide,
   ((losses_falsy_loss zeroLossStore 0 (by decide) (by decide)).1 rfl).trans rfl⟩

/-- C1 (amended): `bestTrial`, `argmin` and `argmax` are undefined exactly
when the derived view is empty.  On a nonempty view `bestTrial` returns a
record of the view and `argmin`/`argmax` return that record's `args`; with
no OK record in the view it returns the view's first record (not
undefined), and when the first record is OK the returned record is OK. -/
theorem bestTrial_view_behavior (t : Trials) (cmp : JSVal → JSVal → Bool) :
    (t.trials = [] →
      t.bestTrial cmp = .undefined ∧ t.argmin = .undefined ∧ t.argmax = .undefined) ∧
    (t.trials ≠ [] → t.bestTrial cmp ∈ t.trials) ∧
    (t.trials ≠ [] →
      t.argmin = jget (t.bestTrial defaultCmp) "args" ∧
      t.argmax = jget (t.bestTrial argmaxCmp) "args") ∧
    ((∀ tr ∈ t.trials, isOkTrial tr = false) →
      ∀ h l, t.trials = h :: l → t.bestTrial cmp = h) ∧
    (∀ h l, t.trials = h :: l → isOkTrial h = true →
      isOkTrial (t.bestTrial cmp) = true) := by
  refine ⟨?_, ?_, ?_, ?_, ?_⟩
  · intro he
    have hb : ∀ c, t.bestTrial c = .undefined := by
      intro c
      unfold Trials.bestTrial
      rw [he]
    refine ⟨hb cmp, ?_, ?_⟩
    · rw [argmin_eq_jget_args, hb]; rfl
    · rw [argmax_eq_jget_args, hb]; rfl
  · intro hne
    cases ht : t.trials with
    | nil => exact absurd ht hne
    | cons h l =>
      have hbt : t.bestTrial cmp = (h :: l).foldl (bestStep cmp) h := by
        unfold Trials.bestTrial
        rw [ht]
      rw [hbt]
      rcases foldl_bestStep_mem cmp (h :: l) h with heq | hm
      · rw [heq]; exact List.mem_cons_self h l
      · exact hm
  · intro _
    exact ⟨argmin_eq_jget_args t, argmax_eq_jget_args t⟩
  · intro hall h l ht
    have hbt : t.bestTrial cmp = (h :: l).foldl (bestStep cmp) h := by
      unfold Trials.bestTrial
      rw [ht]
    rw [hbt]
    refine foldl_bestStep_noOk cmp (h :: l) h ?_
    intro x hx
    exact hall x (ht ▸ hx)
  · intro h l ht hok
    have hbt : t.bestTrial cmp = (h :: l).foldl (bestStep cmp) h := by
      unfold Trials.bestTrial
      rw [ht]
    rw [hbt]
    exact foldl_bestStep_okStatus cmp (h :: l) h hok

/-- C1 witness: on a freshly built store (empty view), `bestTrial`,
`argmin` and `argmax` all come out undefined. -/
theorem bestTrial_view_behavior_witness :
    (Trials.make .null).trials = [] ∧
    (Trials.make .null).bestTrial defaultCmp = .undefined ∧
    (Trials.make .null).argmin = .undefined ∧
    (Trials.make .null).argmax = .undefined := by
  have h := (bestTrial_view_behavior (Trials.make .null) defaultCmp).1 rfl
  exact ⟨rfl, h.1, h.2.1, h.2.2⟩

/-- C1 counterexample: a nonempty view whose only record has status
`"fail"`: `bestTrial` returns that record and `argmin` returns its `args`,
not `undefined` as the claim states. -/
theorem bestTrial_nonOk_counterexample :
    (∀ tr ∈ failStore.trials, isOkTrial tr = false) ∧
    failStore.bestTrial defaultCmp = failDoc ∧
    failStore.argmin = .num (.fin 7) ∧
    failStore.argmin ≠ .undefined := by
  refine ⟨?_, rfl, rfl, ?_⟩
  · intro tr htr
    have hv : failStore.trials = [failDoc] := rfl
    rw [hv] at htr
    rcases List.mem_cons.mp htr with rfl | hcontra
    · rfl
    · cases hcontra
  · intro h
    have hv : failStore.argmin = .num (.fin 7) := rfl
    rw [hv] at h
    exact JSVal.noConfusion h

/-- C8: over a view of OK-status trials whose losses are all finite numbers,
`argmin` is the `args` of a loss-minimal trial; over a view of OK-status
trials with no `loss` and finite `accuracy` values, `argmax` is the `args`
of an accuracy-maximal trial; and in the spec's scenario (losses 1/2 = 0.5
and 1/5 = 0.2) `argmin` returns the args of the second trial. -/
theorem argmin_argmax_best (t u : Trials) :
    (t.trials ≠ [] →
      (∀ tr ∈ t.trials, isOkTrial tr = true ∧ ∃ q, lossOf tr = .num (.fin q)) →
      ∃ b, b ∈ t.trials ∧ t.argmin = jget b "args" ∧
        ∀ tr ∈ t.trials, lq b ≤ lq tr) ∧
    (u.trials ≠ [] →
      (∀ tr ∈ u.trials, isOkTrial tr = true ∧ lossOf tr = .undefined ∧
        ∃ q, accOf tr = .num (.fin q)) →
      ∃ b, b ∈ u.trials ∧ u.argmax = jget b "args" ∧
        ∀ tr ∈ u.trials, aq tr ≤ aq b) ∧
    scenarioStore.argmin = .str "b" := by
  refine ⟨?_, ?_, rfl⟩
  · intro hne hall
    cases ht : t.trials with
    | nil => exact absurd ht hne
    | cons h l =>
      have hbt : t.bestTrial defaultCmp = (h :: l).foldl (bestStep defaultCmp) h := by
        unfold Trials.bestTrial
        rw [ht]
      have hall2 : ∀ x ∈ h :: l, isOkTrial x = true ∧ ∃ q, lossOf x = .num (.fin q) :=
        fun x hx => hall x (ht ▸ hx)
      have hh := hall2 h (List.mem_cons_self h l)
      obtain ⟨hmin1, hmin2⟩ :=
        foldl_bestStep_min (h :: l) h hh.1 hh.2 hall2
      refine ⟨t.bestTrial defaultCmp, ?_, argmin_eq_jget_args t, ?_⟩
      · rw [hbt]
        rcases foldl_bestStep_mem defaultCmp (h :: l) h with heq | hm
        · rw [heq]; exact List.mem_cons_self h l
        · exact hm
      · intro tr htr
        rw [hbt]
        exact hmin2 tr htr
  · intro hne hall
    cases ht : u.trials with
    | nil => exact absurd ht hne
    | cons h l =>
      have hbt : u.bestTrial argmaxCmp = (h :: l).foldl (bestStep argmaxCmp) h := by
        unfold Trials.bestTrial
        rw [ht]
      have hall2 : ∀ x ∈ h :: l, isOkTrial x = true ∧ lossOf x = .undefined ∧
          ∃ q, accOf x = .num (.fin q) :=
        fun x hx => hall x (ht ▸ hx)
      have hh := hall2 h (List.mem_cons_self h l)
      obtain ⟨hmax1, hmax2⟩ :=
        foldl_bestStep_max (h :: l) h hh.1 hh.2.1 hh.2.2 hall2
      refine ⟨u.bestTrial argmaxCmp, ?_, argmax_eq_jget_args u, ?_⟩
      · rw [hbt]
        rcases foldl_bestStep_mem argmaxCmp (h :: l) h with heq | hm
        · rw [heq]; exact List.mem_cons_self h l
        · exact hm
      · intro tr htr
        rw [hbt]
        exact hmax2 tr htr

/-- C8 witness: the loss store (0.5 then 0.2) and the accuracy store
(accuracies 2 and 3) satisfy the hypotheses, and the conclusions follow by
the theorem. -/
theorem argmin_argmax_best_witness :
    scenarioStore.trials ≠ [] ∧ accStore.trials ≠ [] ∧
    (∃ b, b ∈ scenarioStore.trials ∧ scenarioStore.argmin = jget b "args" ∧
      ∀ tr ∈ scenarioStore.trials, lq b ≤ lq tr) ∧
    (∃ b, b ∈ accStore.trials ∧ accStore.argmax = jget b "args" ∧
      ∀ tr ∈ accStore.trials, aq tr ≤ aq b) := by
  have hthm := argmin_argmax_best scenarioStore accStore
  have hne1 : scenarioStore.trials ≠ [] := by
    intro h
    exact absurd (congrArg List.length h) (by decide)
  have hne2 : accStore.trials ≠ [] := by
    intro h
    exact absurd (congrArg List.length h) (by decide)
  have hv1 : scenarioStore.trials =
      [okDoc 0 (.num (.fin halfQ)) (.str "a"), okDoc 1 (.num (.fin fifthQ)) (.str "b")] := rfl
  have hv2 : accStore.trials = [accOnlyDoc 0 2 (.str "c"), accOnlyDoc 1 3 (.str "d")] := rfl
  refine ⟨hne1, hne2, hthm.1 hne1 ?_, hthm.2.1 hne2 ?_⟩
  · intro tr htr
    rw [hv1] at htr
    rcases List.mem_cons.mp htr with rfl | htr2
    · exact ⟨rfl, halfQ, rfl⟩
    · rcases List.mem_cons.mp htr2 with rfl | htr3
      · exact ⟨rfl, fifthQ, rfl⟩
      · cases htr3
  · intro tr htr
    rw [hv2] at htr
    rcases List.mem_cons.mp htr with rfl | htr2
    · exact ⟨rfl, rfl, 2, rfl⟩
    · rcases List.mem_cons.mp htr2 with rfl | htr3
      · exact ⟨rfl, rfl, 3, rfl⟩
      · cases htr3

/-- C5 (amended): `insertDoc` fails with a missing-field error naming the
first absent field in the order id, result, args, state, book_time,
refresh_time — provided the record has at least one own key; a record with
no own keys fails with the coarser "trial should be an object" error
instead.  A record with all six fields but a mismatched `expKey` fails with
the expkey-mismatch error.  On any failure, single or batched, the
authoritative list is untouched. -/
theorem insertDoc_validation (t : Trials) (trial : JSVal) (batch : List JSVal) :
    (∀ i (hi : i < TRIAL_KEYS.length),
      isUndefined (jget trial (TRIAL_KEYS.get ⟨i, hi⟩)) = true →
      (∀ j (hj : j < i), isUndefined (jget trial (TRIAL_KEYS.get ⟨j, by omega⟩)) = false) →
      (objKeys trial).length ≠ 0 →
      t.insertTrialDoc trial =
        (t, .error ("trial missing key " ++ TRIAL_KEYS.get ⟨i, hi⟩))) ∧
    ((∀ k ∈ TRIAL_KEYS, isUndefined (jget trial k) = false) →
      jsStrictEq (jget trial "expKey") t.expKey = false →
      (objKeys trial).length ≠ 0 →
      t.insertTrialDoc trial = (t, .error "wrong trial expKey")) ∧
    ((∃ d ∈ batch, ∃ e, t.assertValidTrial d = .error e) →
      (t.insertTrialDocs batch).1 = t) := by
  refine ⟨?_, ?_, ?_⟩
  · intro i hi hmiss hbefore hkeys
    have hfind : TRIAL_KEYS.find? (fun key => isUndefined (jget trial key)) =
        some (TRIAL_KEYS.get ⟨i, hi⟩) :=
      find_eq_get_of_first _ TRIAL_KEYS i hi hmiss hbefore
    have hk2 : ¬((objKeys trial).length ≤ 0) := by omega
    simp [Trials.insertTrialDoc, Trials.assertValidTrial, hk2, hfind]
  · intro hall hkey hkeys
    have hfind : TRIAL_KEYS.find? (fun key => isUndefined (jget trial key)) = none :=
      List.find?_eq_none.mpr (fun k hk => by rw [hall k hk]; exact Bool.false_ne_true)
    have hk2 : ¬((objKeys trial).length ≤ 0) := by omega
    simp [Trials.insertTrialDoc, Trials.assertValidTrial, hk2, hfind, hkey]
  · intro hex
    obtain ⟨e2, he2⟩ := mapValid_error_of_invalid t batch hex
    simp [Trials.insertTrialDocs, he2]

/-- C5 witness: inserting a record with `id` and `args` but no `result`
fails naming `result` (the first absent field), leaving the store as it was. -/
theorem insertDoc_validation_witness :
    isUndefined (jget docMissingResult "result") = true ∧
    (objKeys docMissingResult).length ≠ 0 ∧
    (Trials.make .null).insertTrialDoc docMissingResult =
      (Trials.make .null, .error "trial missing key result") := by
  refine ⟨rfl, by decide, ?_⟩
  exact (insertDoc_validation (Trials.make .null) docMissingResult []).1 1 (by decide)
    rfl (by intro j hj; interval_cases j; rfl) (by decide)

/-- C5 counterexample: the record `{}` has all six fields absent, yet the
insert fails with "trial should be an object", not with a missing-field
error naming `id`. -/
theorem insertDoc_empty_object_counterexample :
    (Trials.make .null).insertTrialDoc (jobj []) =
      (Trials.make .null, .error "trial should be an object") ∧
    "trial should be an object" ≠ "trial missing key id" :=
  ⟨rfl, by decide⟩

/-- No value is its own wrapping `{ loss: v, status: 'ok' }`. -/
theorem ne_loss_wrap (v : JSVal) :
    v ≠ jobj [("loss", v), ("status", STATUS_OK)] := by
  intro h
  have hs := congrArg sizeOf h
  simp [jobj, JSFields.ofList, STATUS_OK] at hs
  omega

/-- C3 (amended): `Domain.evaluate` wraps the return value as
`{ loss: v, status: OK }` iff `v` is a number other than NaN — including
Infinity and -Infinity, which the claim said would go to structured
validation; NaN and non-numbers go down the structured-validation path,
which either fails or returns the value unchanged. -/
theorem domain_wrap_characterization (v : JSVal) :
    (evalReturnValue v = .ok (jobj [("loss", v), ("status", STATUS_OK)]) ↔
      isNumber v = true ∧ isNaNVal v = false) ∧
    (isNumber v = false ∨ isNaNVal v = true →
      (∃ e, evalReturnValue v = .error e) ∨ evalReturnValue v = .ok v) := by
  cases v with
  | undefined =>
    exact ⟨⟨fun h => Except.noConfusion h, fun h => Bool.noConfusion h.1⟩,
      fun _ => Or.inl ⟨.invalidReturn, rfl⟩⟩
  | null =>
    exact ⟨⟨fun h => Except.noConfusion h, fun h => Bool.noConfusion h.1⟩,
      fun _ => Or.inl ⟨.typeErr, rfl⟩⟩
  | bool b =>
    exact ⟨⟨fun h => Except.noConfusion h, fun h => Bool.noConfusion h.1⟩,
      fun _ => Or.inl ⟨.invalidStatus, rfl⟩⟩
  | str s =>
    exact ⟨⟨fun h => Except.noConfusion h, fun h => Bool.noConfusion h.1⟩,
      fun _ => Or.inl ⟨.invalidStatus, rfl⟩⟩
  | arr items =>
    exact ⟨⟨fun h => Except.noConfusion h, fun h => Bool.noConfusion h.1⟩,
      fun _ => Or.inl ⟨.invalidStatus, rfl⟩⟩
  | num n =>
    cases n with
    | nan =>
      exact ⟨⟨fun h => Except.noConfusion h, fun h => Bool.noConfusion h.2⟩,
        fun _ => Or.inl ⟨.invalidStatus, rfl⟩⟩
    | fin q =>
      exact ⟨⟨fun _ => ⟨rfl, rfl⟩, fun _ => rfl⟩,
        fun h => h.elim (fun h2 => Bool.noConfusion h2) (fun h2 => Bool.noConfusion h2)⟩
    | inf =>
      exact ⟨⟨fun _ => ⟨rfl, rfl⟩, fun _ => rfl⟩,
        fun h => h.elim (fun h2 => Bool.noConfusion h2) (fun h2 => Bool.noConfusion h2)⟩
    | ninf =>
      exact ⟨⟨fun _ => ⟨rfl, rfl⟩, fun _ => rfl⟩,
        fun h => h.elim (fun h2 => Bool.noConfusion h2) (fun h2 => Bool.noConfusion h2)⟩
  | obj fs =>
    have hred : evalReturnValue (.obj fs) =
        (if listIndexOf STATUS_STRINGS (jget (.obj fs) "status") < 0 then
           Except.error DomainError.invalidStatus
         else if (jsStrictEq (jget (.obj fs) "status") STATUS_OK
             && isUndefined (jget (.obj fs) "loss")
             && isUndefined (jget (.obj fs) "accuracy")) = true then
           Except.error DomainError.incompleteResult
         else Except.ok (JSVal.obj fs)) := rfl
    constructor
    · constructor
      · intro h
        rw [hred] at h
        split at h
        · exact Except.noConfusion h
        · split at h
          · exact Except.noConfusion h
          · have hinj : JSVal.obj fs = jobj [("loss", .obj fs), ("status", STATUS_OK)] :=
              Except.ok.inj h
            exact absurd hinj (ne_loss_wrap (.obj fs))
      · intro h
        exact Bool.noConfusion h.1
    · intro _
      by_cases h1 : listIndexOf STATUS_STRINGS (jget (.obj fs) "status") < 0
      · exact Or.inl ⟨.invalidStatus, by rw [hred, if_pos h1]⟩
      · by_cases h2 : (jsStrictEq (jget (.obj fs) "status") STATUS_OK
            && isUndefined (jget (.obj fs) "loss")
            && isUndefined (jget (.obj fs) "accuracy")) = true
        · exact Or.inl ⟨.incompleteResult, by rw [hred, if_neg h1, if_pos h2]⟩
        · exact Or.inr (by rw [hred, if_neg h1, if_neg h2])

/-- C3 witness: NaN is a number yet is routed to structured validation
(where, carrying no `status`, it fails). -/
theorem domain_wrap_characterization_witness :
    (isNumber (.num .nan) = false ∨ isNaNVal (.num .nan) = true) ∧
    ((∃ e, evalReturnValue (.num .nan) = .error e) ∨
      evalReturnValue (.num .nan) = .ok (.num .nan)) :=
  ⟨Or.inr rfl, (domain_wrap_characterization (.num .nan)).2 (Or.inr rfl)⟩

/-- C3 counterexample: Infinity is not finite, yet `Domain.evaluate` wraps
it as `{ loss: Infinity, status: OK }` instead of treating it as a
structured result (which would have failed with an invalid-status error). -/
theorem domain_infinity_counterexample :
    evalReturnValue (.num .inf) =
      .ok (jobj [("loss", .num .inf), ("status", STATUS_OK)]) ∧
    ∀ e, evalReturnValue (.num .inf) ≠ .error e := by
  refine ⟨rfl, ?_⟩
  intro e h
  exact Except.noConfusion h

/-- C4 (amended): for a non-numeric return value `v`, `Domain.evaluate`
fails with an invalid-return error when `v` is undefined; when `v` is null
the destructuring of the result itself throws (a native type error, not the
invalid-return error); otherwise it fails with an invalid-status error when
`v.status` is not among the five recognized strings, fails with an
incomplete-result error when the status is OK and neither `loss` nor
`accuracy` is present, and else returns `v` unchanged. -/
theorem domain_structured_validation (v : JSVal) (hnum : isNumber v = false) :
    (v = .undefined → evalReturnValue v = .error .invalidReturn) ∧
    (v = .null → evalReturnValue v = .error .typeErr) ∧
    (v ≠ .undefined → v ≠ .null →
      ((listIndexOf STATUS_STRINGS (jget v "status") < 0 →
          evalReturnValue v = .error .invalidStatus) ∧
       (0 ≤ listIndexOf STATUS_STRINGS (jget v "status") →
          (jsStrictEq (jget v "status") STATUS_OK && isUndefined (jget v "loss")
            && isUndefined (jget v "accuracy")) = true →
          evalReturnValue v = .error .incompleteResult) ∧
       (0 ≤ listIndexOf STATUS_STRINGS (jget v "status") →
          (jsStrictEq (jget v "status") STATUS_OK && isUndefined (jget v "loss")
            && isUndefined (jget v "accuracy")) = false →
          evalReturnValue v = .ok v))) := by
  refine ⟨?_, ?_, ?_⟩
  · rintro rfl; rfl
  · rintro rfl; rfl
  · intro hu hn
    have h1 : isUndefined v = false := by
      cases v <;> first | rfl | exact absurd rfl hu
    have h2 : jsStrictEq v .null = false := by
      cases v <;> first | rfl | exact absurd rfl hn
    have hred : evalReturnValue v =
        (if listIndexOf STATUS_STRINGS (jget v "status") < 0 then
           Except.error DomainError.invalidStatus
         else if (jsStrictEq (jget v "status") STATUS_OK
             && isUndefined (jget v "loss") && isUndefined (jget v "accuracy")) = true then
           Except.error DomainError.incompleteResult
         else Except.ok v) := by
      show (if (isNumber v && !isNaNVal v) = true then
              Except.ok (jobj [("loss", v), ("status", STATUS_OK)])
            else if isUndefined v = true then Except.error DomainError.invalidReturn
            else if jsStrictEq v JSVal.null = true then Except.error DomainError.typeErr
            else if listIndexOf STATUS_STRINGS (jget v "status") < 0 then
              Except.error DomainError.invalidStatus
            else if (jsStrictEq (jget v "status") STATUS_OK
                && isUndefined (jget v "loss") && isUndefined (jget v "accuracy")) = true then
              Except.error DomainError.incompleteResult
            else Except.ok v) = _
      rw [hnum, h1, h2]
      simp only [Bool.false_and, Bool.false_eq_true, if_false]
    refine ⟨?_, ?_, ?_⟩
    · intro hlt
      rw [hred, if_pos hlt]
    · intro hge hcond
      rw [hred, if_neg (not_lt.mpr hge), if_pos hcond]
    · intro hge hcond
      rw [hred, if_neg (not_lt.mpr hge),
        if_neg (fun hcontra => Bool.false_ne_true (hcond ▸ hcontra))]

/-- C4 witness: the structured result `{ status: "bogus" }` fails with an
invalid-status error. -/
theorem domain_structured_validation_witness :
    isNumber bogusResult = false ∧
    listIndexOf STATUS_STRINGS (jget bogusResult "status") < 0 ∧
    evalReturnValue bogusResult = .error .invalidStatus := by
  refine ⟨rfl, by decide, ?_⟩
  exact ((domain_structured_validation bogusResult rfl).2.2
    (fun h => JSVal.noConfusion h) (fun h => JSVal.noConfusion h)).1 (by decide)

/-- C4 counterexample: for a `null` return value the code throws the native
destructuring type error, not the invalid-return error the claim names. -/
theorem domain_null_counterexample :
    evalReturnValue .null = .error .typeErr ∧
    DomainError.typeErr ≠ DomainError.invalidReturn :=
  ⟨rfl, by decide⟩

/-- C2 (code bug): on a store with experiment key `"A"` holding one matching
NEW-state record, `countByStateUnsynced` returns 0 because it maps records to
booleans (`map` where a `filter` is needed), while the expKey-filtered count
over the authoritative list is 1. -/
theorem countByStateUnsynced_returns_zero :
    c2store.countByStateUnsynced (jarr [JOB_STATE_NEW]) = 0 ∧
    (c2store.dynamicTrials.filter (fun trial =>
        jsStrictEq (jget trial "expKey") c2store.expKey &&
        decide (0 ≤ listIndexOf [JOB_STATE_NEW] (jget trial "state")))).length = 1 :=
  ⟨rfl, rfl⟩

/-- C7 witness: reserving 1 and then 2 ids from a fresh store yields blocks
of the stated lengths. -/
theorem newTrialIds_two_calls_witness :
    0 < 1 ∧ 0 < 2 ∧
    ((Trials.make .null).newTrialIds 1).2.length = 1 ∧
    (((Trials.make .null).newTrialIds 1).1.newTrialIds 2).2.length = 2 :=
  ⟨by decide, by decide,
   (newTrialIds_two_calls (Trials.make .null) 1 2 (by decide) (by decide)).1,
   (newTrialIds_two_calls (Trials.make .null) 1 2 (by decide) (by decide)).2.1⟩

/-- C6 witness: on the store with experiment key `"A"` and one matching
record, the refreshed view is the stated filter of the authoritative list,
and its record's state is not ERROR. -/
theorem refresh_view_behavior_witness :
    (c2store.refresh).trials = c2store.dynamicTrials.filter
      (fun trial => !(jsStrictEq (jget trial "state") JOB_STATE_ERROR)
        && (jsStrictEq c2store.expKey .null
          || jsStrictEq (jget trial "expKey") c2store.expKey)) ∧
    jsStrictEq (jget c2doc "state") JOB_STATE_ERROR = false := by
  refine ⟨(refresh_view_behavior c2store).1, ?_⟩
  refine (refresh_view_behavior c2store).2 c2doc ?_
  rw [show (c2store.refresh).trials = [c2doc] from rfl]
  exact List.mem_cons_self c2doc []
